import Mathlib

/-!
Shallow embedding of the ingestion and progress-tracking pipeline of the
gemini-video-insight repository.

The embedded code lives in the frontend service layer (`services/api.ts`:
`ingestFile`, `ingestUrl`) and in the application coordinator (`App.tsx`:
`handleIngest`, `handleSelectFromHistory`), plus the error-message render
of `components/IngestSection.tsx`.

Modelling conventions:
* JavaScript numbers are modelled as `Nat`/`Int` for byte counts and percent
  values and as `ℚ` for timestamps (milliseconds, as produced by `Date.now()`)
  and rates; the code performs no operation where binary floating point and
  exact rational arithmetic diverge structurally.
* The asynchronous poll loop of `ingestUrl` is driven by a synthetic server,
  a function from the poll-attempt index to that poll's outcome; the loop's
  bounded attempt counter becomes structural fuel.
* `onProgress` callbacks are modelled by collecting the emitted
  `UploadProgressInfo` events into a list, in emission order.  All embedded
  entry points model calls made with an `onProgress` callback supplied, which
  is the situation every claim speaks about.
* JavaScript truthiness on optional strings (`x || d` and `if (x)`) is
  modelled explicitly: `none` and the empty string are falsy.
-/

/-- Result body of the backend `POST /api/ingest` call (`types.ts`,
`IngestResponse`). -/
structure IngestResponse where
  file_name : String
  status : String
  upload_id : Option String
  display_name : Option String
deriving DecidableEq

/-- Progress payload delivered to `onProgress` callbacks (`services/api.ts`,
`UploadProgressInfo`). -/
structure UploadProgressInfo where
  progress : Int
  loaded : Nat
  total : Nat
  speed : ℚ
  message : String
deriving DecidableEq

/-- JavaScript `x || d` on an optional string: `none` and `""` are falsy. -/
def jsOrElse : Option String → String → String
  | some s, d => if s = "" then d else s
  | none, d => d

/-- JavaScript truthiness test `if (x)` on an optional string. -/
def jsTruthy : Option String → Bool
  | some s => !(s = "")
  | none => false

/-! ### Transfer Meter (`ingestFile`, the closure over `lastLoaded`,
`lastTime`, `currentSpeed`) -/

/-- Mutable closure state of the upload speed meter inside `ingestFile`. -/
structure MeterState where
  lastLoaded : Nat
  lastTime : ℚ
  currentSpeed : ℚ
deriving DecidableEq

/-- One `xhr.upload.onprogress` sample's speed update: `timeDiff` is the
elapsed time in seconds; samples closer than 100ms to the retained one are
suppressed; otherwise the instantaneous rate is smoothed by an exponential
moving average with factor 0.3 (`smoothingFactor` in the source). -/
def meterStep (st : MeterState) (now : ℚ) (loaded : Nat) : MeterState :=
  let timeDiff : ℚ := (now - st.lastTime) / 1000
  let loadedDiff : ℚ := (loaded : ℚ) - (st.lastLoaded : ℚ)
  if 1 / 10 ≤ timeDiff then
    let instantSpeed := loadedDiff / timeDiff
    let newSpeed :=
      if st.currentSpeed = 0 then instantSpeed
      else 3 / 10 * instantSpeed + (1 - 3 / 10) * st.currentSpeed
    { lastLoaded := loaded, lastTime := now, currentSpeed := newSpeed }
  else
    st

/-! ### Upload Channel (`ingestFile`) -/

/-- One raw `xhr.upload.onprogress` sample: the `Date.now()` timestamp (ms)
and `event.loaded`; `event.total` is fixed for the single upload body and is
a separate parameter. -/
structure FileSample where
  time : ℚ
  loaded : Nat
deriving DecidableEq

/-- Percent shown for an upload sample:
`Math.round((event.loaded / event.total) * 50)`. -/
def roundPercent (total loaded : Nat) : Int :=
  round ((loaded : ℚ) / (total : ℚ) * 50)

/-- Decimal formatting of a rational, mirroring `Number.prototype.toFixed`
(round half up at the last kept digit). -/
def toFixed (digits : Nat) (q : ℚ) : String :=
  let p : ℤ := (10 : ℤ) ^ digits
  let n : ℤ := round (q * (p : ℚ))
  let frac := (n % p).natAbs
  let fracText := toString frac
  let pad := String.mk (List.replicate (digits - fracText.length) '0')
  toString (n / p) ++ "." ++ pad ++ fracText

/-- JavaScript `%` on nonnegative rationals (used for `eta % 3600`). -/
def jsMod (a b : ℚ) : ℚ := a - b * (⌊a / b⌋ : ℚ)

/-- The remaining-time suffix of the upload message (`eta` in seconds). -/
def etaText (eta : ℚ) : String :=
  if eta < 60 then " - " ++ toString ⌈eta⌉ ++ "s remaining"
  else if eta < 3600 then " - " ++ toString ⌈eta / 60⌉ ++ "m remaining"
  else " - " ++ toString ⌊eta / 3600⌋ ++ "h " ++
    toString ⌈jsMod eta 3600 / 60⌉ ++ "m remaining"

/-- Human message of an upload progress sample, built exactly as in the
source: transferred/total MB, then speed and ETA only while the rate is
positive and bytes are still outstanding. -/
def uploadSampleMessage (loaded total : Nat) (speed : ℚ) : String :=
  let loadedMB : ℚ := (loaded : ℚ) / (1024 * 1024)
  let totalMB : ℚ := (total : ℚ) / (1024 * 1024)
  let speedMBps : ℚ := speed / (1024 * 1024)
  let base := "Uploading: " ++ toFixed 1 loadedMB ++ "MB / " ++
    toFixed 1 totalMB ++ "MB"
  if 0 < speed ∧ loaded < total then
    let remaining : ℚ := (total : ℚ) - (loaded : ℚ)
    let eta := remaining / speed
    base ++ " (" ++ toFixed 2 speedMBps ++ " MB/s)" ++ etaText eta
  else base

/-- Event emitted for one upload sample; the speed is the meter state after
the sample was offered to `meterStep`. -/
def fileSampleEvent (total loaded : Nat) (speed : ℚ) : UploadProgressInfo :=
  { progress := roundPercent total loaded
    loaded := loaded
    total := total
    speed := speed
    message := uploadSampleMessage loaded total speed }

/-- Events emitted by the `xhr.upload.onprogress` handler over a sample
stream, threading the meter closure state. -/
def processSamples (total : Nat) : MeterState → List FileSample →
    List UploadProgressInfo
  | _, [] => []
  | st, s :: rest =>
    let st2 := meterStep st s.time s.loaded
    fileSampleEvent total s.loaded st2.currentSpeed ::
      processSamples total st2 rest

/-- The immediate 0% event (`'Starting upload...'`), emitted when
`file.size` is truthy. -/
def uploadInitEvent (size : Nat) : UploadProgressInfo :=
  { progress := 0, loaded := 0, total := size, speed := 0
    message := "Starting upload..." }

/-- The terminal 100% event (`'Upload complete!'`), emitted on HTTP success
when `file.size` is truthy. -/
def uploadFinalEvent (size : Nat) : UploadProgressInfo :=
  { progress := 100, loaded := size, total := size, speed := 0
    message := "Upload complete!" }

/-- Terminal outcome of the upload request: 2xx with parseable body, 2xx
with unparseable body, structured non-2xx failure, or no response at all. -/
inductive UploadOutcome where
  | success (resp : IngestResponse)
  | badBody
  | httpFailure (detail : Option String)
  | networkFailure
deriving DecidableEq

/-- Events emitted before the request settles: the initial 0% event followed
by one event per `onprogress` sample. -/
def uploadTransferEvents (size : Nat) (tStart : ℚ)
    (samples : List FileSample) : List UploadProgressInfo :=
  (if size = 0 then [] else [uploadInitEvent size]) ++
    processSamples size { lastLoaded := 0, lastTime := tStart, currentSpeed := 0 } samples

/-- Embedding of `ingestFile` (with an `onProgress` callback): the emitted
event list and the settled promise.  `size` is both `file.size` and the
fixed `event.total` of the upload; `tStart` is `Date.now()` at promise
construction. -/
def ingestFile (size : Nat) (tStart : ℚ) (samples : List FileSample)
    (outcome : UploadOutcome) :
    List UploadProgressInfo × Except String IngestResponse :=
  match outcome with
  | .success r =>
    (uploadTransferEvents size tStart samples ++
      (if size = 0 then [] else [uploadFinalEvent size]), .ok r)
  | .badBody =>
    (uploadTransferEvents size tStart samples, .error "Failed to parse response")
  | .httpFailure detail =>
    (uploadTransferEvents size tStart samples,
      .error (jsOrElse detail "Upload failed"))
  | .networkFailure =>
    (uploadTransferEvents size tStart samples, .error "Network error")

/-! ### Remote-Fetch Channel (`ingestUrl`) -/

/-- Parsed body of one `GET /api/progress/{upload_id}` poll response.
Optional fields mirror the JavaScript object: `loaded`, `total`, `speed`
default to 0 via `||`, `message` defaults to `'Processing...'`. -/
structure PollData where
  progress : Int
  loaded : Option Nat
  total : Option Nat
  speed : Option ℚ
  message : Option String
  stage : Option String
  file_name : Option String
  display_name : Option String
deriving DecidableEq

/-- Outcome of one poll request, as seen by the loop body:
* `dropped` — the `fetch` itself rejected with the transport error
  `TypeError: Failed to fetch` (connection dropped);
* `httpFailure` — a response arrived but `progressResponse.ok` is false;
* `badBody` — an ok response whose body fails `json()` parsing
  (a `SyntaxError`, whose message differs from `'Failed to fetch'`);
* `ok` — an ok response with a parsed body. -/
inductive PollOutcome where
  | dropped
  | httpFailure
  | badBody
  | ok (d : PollData)
deriving DecidableEq

/-- Failure modes of the `ingestUrl` poll phase: the re-raised
`stage === 'error'` server message, the poll-budget timeout, and the
re-raised body-parse failure. -/
inductive UrlIngestError where
  | serverError (msg : String)
  | timeoutError (msg : String)
  | parseFailure
deriving DecidableEq

/-- How the `while` loop of `ingestUrl` ended: `break` on a terminal stage,
a thrown error propagating out, or the attempt budget running out. -/
inductive LoopExit where
  | completed (r : IngestResponse)
  | failed (e : UrlIngestError)
  | exhausted
deriving DecidableEq

/-- Progress event forwarded for a poll response, with the JavaScript `||`
defaults of the source. -/
def pollEvent (d : PollData) : UploadProgressInfo :=
  { progress := d.progress
    loaded := d.loaded.getD 0
    total := d.total.getD 0
    speed := d.speed.getD 0
    message := jsOrElse d.message "Processing..." }

/-- On the `break` paths the loop copies a truthy `file_name` /
`display_name` from the final poll body into the initiate result. -/
def adoptJobResult (r : IngestResponse) (d : PollData) : IngestResponse :=
  { r with
    file_name :=
      match d.file_name with
      | some s => if s = "" then r.file_name else s
      | none => r.file_name
    display_name :=
      match d.display_name with
      | some s => if s = "" then r.display_name else some s
      | none => r.display_name }

/-- The text of the timeout error thrown when the attempt budget runs out. -/
def timeoutText : String := "Upload timeout - video processing took too long"

/-- The `while (attempts < maxAttempts)` poll loop of `ingestUrl`, driven by
a synthetic server mapping each attempt index to its outcome.  Returns the
events forwarded to `onProgress`, the number of poll requests issued, and
how the loop ended.  Each iteration mirrors the source: a dropped request or
a non-ok response is swallowed and polling continues; a parsed body is
forwarded only when `progress` strictly exceeds `lastProgress`; then
`progress >= 100 || stage === 'complete'` breaks out adopting the job's
final names; then `stage === 'error'` throws the server message (the `catch`
re-raises it because `progressData.stage === 'error'`); an unparseable body
throws a `SyntaxError`, which the `catch` also re-raises. -/
def pollLoop (server : Nat → PollOutcome) :
    Nat → Nat → Int → IngestResponse →
    List UploadProgressInfo × Nat × LoopExit
  | 0, _, _, _ => ([], 0, .exhausted)
  | fuel + 1, attempt, lastProgress, result =>
    match server attempt with
    | .dropped =>
      let rest := pollLoop server fuel (attempt + 1) lastProgress result
      (rest.1, rest.2.1 + 1, rest.2.2)
    | .httpFailure =>
      let rest := pollLoop server fuel (attempt + 1) lastProgress result
      (rest.1, rest.2.1 + 1, rest.2.2)
    | .badBody => ([], 1, .failed .parseFailure)
    | .ok d =>
      let emitted : List UploadProgressInfo :=
        if lastProgress < d.progress then [pollEvent d] else []
      let lastProgress2 : Int :=
        if lastProgress < d.progress then d.progress else lastProgress
      if 100 ≤ d.progress ∨ d.stage = some "complete" then
        (emitted, 1, .completed (adoptJobResult result d))
      else if d.stage = some "error" then
        (emitted, 1,
          .failed (.serverError (jsOrElse d.message "Upload failed")))
      else
        let rest := pollLoop server fuel (attempt + 1) lastProgress2 result
        (emitted ++ rest.1, rest.2.1 + 1, rest.2.2)

/-- Whether one poll iteration lets the loop proceed to the next attempt:
true for swallowed transport failures and for parsed bodies that hit none of
the three exit conditions. -/
def pollContinues : PollOutcome → Bool
  | .dropped => true
  | .httpFailure => true
  | .badBody => false
  | .ok d =>
    decide (¬ (100 ≤ d.progress ∨ d.stage = some "complete")) &&
      decide (¬ d.stage = some "error")

/-- The immediate percent-5 event emitted before the initiate round trip. -/
def urlInitEvent : UploadProgressInfo :=
  { progress := 5, loaded := 0, total := 0, speed := 0
    message := "Initiating URL download..." }

/-- The terminal percent-100 event emitted after the poll phase (or right
away when the backend returned no job handle). -/
def urlFinalEvent : UploadProgressInfo :=
  { progress := 100, loaded := 0, total := 0, speed := 0
    message := "Video processed successfully!" }

/-- Embedding of `ingestUrl` (with an `onProgress` callback) after a
successful initiate call returning `init`: the emitted events, the number of
poll requests issued, and the settled promise.  Polling happens only when
`init.upload_id` is truthy; `lastProgress` starts at 5 and the attempt
budget is `maxAttempts` (360 in the source). -/
def ingestUrl (init : IngestResponse) (server : Nat → PollOutcome)
    (maxAttempts : Nat) :
    List UploadProgressInfo × Nat × Except UrlIngestError IngestResponse :=
  if jsTruthy init.upload_id then
    match pollLoop server maxAttempts 0 5 init with
    | (evs, polls, .completed r) =>
      (urlInitEvent :: evs ++ [urlFinalEvent], polls, .ok r)
    | (evs, polls, .failed e) => (urlInitEvent :: evs, polls, .error e)
    | (evs, polls, .exhausted) =>
      (urlInitEvent :: evs, polls, .error (.timeoutError timeoutText))
  else
    ([urlInitEvent, urlFinalEvent], 0, .ok init)

/-! ### Ingestion Coordinator (`App.tsx`) -/

/-- UI-facing ingestion status (`types.ts`, `UploadStatus`). -/
inductive UploadStatus where
  | idle
  | uploading
  | processing
  | success
  | error
deriving DecidableEq

/-- One turn of the Q&A conversation (`services/api.ts`, `QAHistoryItem`). -/
structure QAHistoryItem where
  role : String
  text : String
deriving DecidableEq

/-- The coordinator state owned by `App.tsx` (the `useState` hooks the
ingestion pipeline and the analysis results live in). -/
structure AppState where
  uploadStatus : UploadStatus
  uploadedFileName : Option String
  originalFileName : String
  errorMessage : String
  uploadProgress : Int
  uploadMessage : String
  summaryResult : String
  qaResult : String
  qaHistory : List QAHistoryItem
  showHistory : Bool
deriving DecidableEq

/-- The `onProgress` closure of `handleIngest`: records percent and message
and flips the status label to `processing` from 40% on. -/
def applyProgress (st : AppState) (info : UploadProgressInfo) : AppState :=
  let st2 := { st with uploadProgress := info.progress
                       uploadMessage := info.message }
  if 40 ≤ info.progress then { st2 with uploadStatus := .processing } else st2

/-- The reset block at the top of `handleIngest`: every attempt starts from
a clean uploading state. -/
def resetForIngest (st : AppState) : AppState :=
  { st with uploadStatus := .uploading
            errorMessage := ""
            summaryResult := ""
            qaResult := ""
            qaHistory := []
            uploadProgress := 0
            uploadMessage := "" }

/-- Embedding of `handleIngest`: reset, the URL branch's eager `processing`
label, the stream of progress callbacks from the single channel invocation,
then the terminal `try`/`catch` handling of its settled outcome.  The second
component counts channel invocations performed by this call (the source
awaits `ingestFile` or `ingestUrl` exactly once and its `catch` block only
records the failure). -/
def handleIngest (st : AppState) (urlPath : Bool)
    (events : List UploadProgressInfo)
    (outcome : Except String IngestResponse) : AppState × Nat :=
  let st0 := resetForIngest st
  let st1 := if urlPath then { st0 with uploadStatus := .processing } else st0
  let st2 := events.foldl applyProgress st1
  match outcome with
  | .ok r =>
    ({ st2 with uploadedFileName := some r.file_name
                originalFileName := jsOrElse r.display_name r.file_name
                uploadStatus := .success
                uploadProgress := 100
                uploadMessage := "Upload complete!" }, 1)
  | .error msg =>
    ({ st2 with uploadStatus := .error
                errorMessage := msg
                uploadProgress := 0 }, 1)

/-- Embedding of `handleSelectFromHistory`: re-entry from the asset registry
list adopts the selected asset and jumps straight to success, clearing the
analysis results of whatever asset was active before. -/
def handleSelectFromHistory (st : AppState) (fileName : String)
    (displayName : Option String) : AppState :=
  { st with uploadedFileName := some fileName
            originalFileName := jsOrElse displayName fileName
            uploadStatus := .success
            showHistory := false
            summaryResult := ""
            qaResult := ""
            qaHistory := [] }

/-- The error message actually rendered by `IngestSection.tsx`: shown only
while the status is `error`, with a translated fallback for an empty
message. -/
def displayedErrorMessage (st : AppState) (fallback : String) :
    Option String :=
  if st.uploadStatus = .error then
    some (if st.errorMessage = "" then fallback else st.errorMessage)
  else none

/-! ## Theorems -/

theorem meter_gate_iff (x : ℚ) : (1 : ℚ) / 10 ≤ x / 1000 ↔ 100 ≤ x := by
  rw [le_div_iff₀ (by norm_num : (0 : ℚ) < 1000)]
  constructor <;> intro h <;> linarith

/-- C6: one Transfer-Meter sample `(t1, b1)` against the retained sample
`(t0, b0) = (st.lastTime, st.lastLoaded)`: under 100ms the smoothed rate and
the retained sample are unchanged; otherwise the instantaneous rate is
`(b1 - b0)` divided by the elapsed seconds `(t1 - t0)/1000`, the smoothed
rate is it directly when the previous rate was 0 and the EMA
`0.3·instant + 0.7·previous` otherwise, and the retained sample becomes
`(t1, b1)`. -/
theorem meterStep_spec (st : MeterState) (t1 : ℚ) (b1 : Nat) :
    (t1 - st.lastTime < 100 → meterStep st t1 b1 = st) ∧
    (100 ≤ t1 - st.lastTime →
      meterStep st t1 b1 =
        { lastLoaded := b1
          lastTime := t1
          currentSpeed :=
            if st.currentSpeed = 0 then
              ((b1 : ℚ) - (st.lastLoaded : ℚ)) / ((t1 - st.lastTime) / 1000)
            else
              3 / 10 *
                  (((b1 : ℚ) - (st.lastLoaded : ℚ)) /
                    ((t1 - st.lastTime) / 1000)) +
                7 / 10 * st.currentSpeed }) := by
  constructor
  · intro h
    have hgate : ¬ (1 : ℚ) / 10 ≤ (t1 - st.lastTime) / 1000 := by
      rw [meter_gate_iff]; linarith
    simp only [meterStep]
    rw [if_neg hgate]
  · intro h
    have hgate : (1 : ℚ) / 10 ≤ (t1 - st.lastTime) / 1000 := by
      rw [meter_gate_iff]; linarith
    simp only [meterStep]
    rw [if_pos hgate]
    simp only [MeterState.mk.injEq, true_and]
    by_cases hz : st.currentSpeed = 0
    · simp [hz]
    · simp only [if_neg hz]
      ring

/-- Witness for C6: a 50ms sample is suppressed; a 200ms sample starting
from a zero rate adopts the instantaneous rate 500 bytes / 0.2 s = 2500. -/
theorem meterStep_spec_witness :
    meterStep ⟨0, 0, 0⟩ 50 10 = ⟨0, 0, 0⟩ ∧
    meterStep ⟨0, 0, 0⟩ 200 500 = ⟨500, 200, 2500⟩ := by
  constructor
  · exact (meterStep_spec ⟨0, 0, 0⟩ 50 10).1 (by norm_num)
  · have h := (meterStep_spec ⟨0, 0, 0⟩ 200 500).2 (by norm_num)
    rw [h]
    norm_num

/-- C7: when the active channel's promise rejects with message `msg`,
`handleIngest` moves the coordinator to the error state, resets progress to
0, records `msg` verbatim, and performs exactly one channel invocation (no
automatic retry). -/
theorem handleIngest_failure_policy (st : AppState) (urlPath : Bool)
    (events : List UploadProgressInfo) (msg : String) :
    (handleIngest st urlPath events (.error msg)).1.uploadStatus = .error ∧
    (handleIngest st urlPath events (.error msg)).1.uploadProgress = 0 ∧
    (handleIngest st urlPath events (.error msg)).1.errorMessage = msg ∧
    (handleIngest st urlPath events (.error msg)).2 = 1 := by
  simp [handleIngest]

/-- C8: selecting an asset from the registry list, from any prior state,
jumps to success, adopts the selected identifier and display name, clears
the summary text, Q&A result and Q&A history, and leaves no rendered error
message (the error banner is only rendered in the error state). -/
theorem handleSelectFromHistory_spec (st : AppState) (fileName : String)
    (displayName : Option String) (fallback : String) :
    (handleSelectFromHistory st fileName displayName).uploadStatus =
        .success ∧
    (handleSelectFromHistory st fileName displayName).uploadedFileName =
        some fileName ∧
    (handleSelectFromHistory st fileName displayName).originalFileName =
        jsOrElse displayName fileName ∧
    (handleSelectFromHistory st fileName displayName).summaryResult = "" ∧
    (handleSelectFromHistory st fileName displayName).qaResult = "" ∧
    (handleSelectFromHistory st fileName displayName).qaHistory = [] ∧
    displayedErrorMessage (handleSelectFromHistory st fileName displayName)
        fallback = none := by
  simp [handleSelectFromHistory, displayedErrorMessage]

/-- C10: whenever `ingestUrl` resolves successfully the last emitted event
has progress exactly 100; and when the initiate response carries no truthy
`upload_id` the emitted events are exactly the initial percent-5 event and
the final percent-100 event, with zero poll requests issued. -/
theorem ingestUrl_success_final_event (init : IngestResponse)
    (server : Nat → PollOutcome) (maxAttempts : Nat) (r : IngestResponse) :
    ((ingestUrl init server maxAttempts).2.2 = .ok r →
      ((ingestUrl init server maxAttempts).1).getLast?.map (·.progress) =
        some 100) ∧
    (jsTruthy init.upload_id = false →
      (ingestUrl init server maxAttempts).1 =
          [urlInitEvent, urlFinalEvent] ∧
      (ingestUrl init server maxAttempts).2.1 = 0) := by
  unfold ingestUrl
  by_cases hid : jsTruthy init.upload_id
  · rw [if_pos hid]
    rcases hpl : pollLoop server maxAttempts 0 5 init with ⟨evs, polls, ex⟩
    cases ex with
    | completed res =>
      refine ⟨fun _ => ?_, fun hf => by rw [hf] at hid; exact absurd hid (by simp)⟩
      show ((urlInitEvent :: evs ++ [urlFinalEvent]).getLast?).map (·.progress) = some 100
      rw [show urlInitEvent :: evs ++ [urlFinalEvent] =
        (urlInitEvent :: evs) ++ [urlFinalEvent] from rfl]
      rw [List.getLast?_concat]
      simp [urlFinalEvent]
    | failed e =>
      refine ⟨fun hc => by simp at hc,
        fun hf => by rw [hf] at hid; exact absurd hid (by simp)⟩
    | exhausted =>
      refine ⟨fun hc => by simp at hc,
        fun hf => by rw [hf] at hid; exact absurd hid (by simp)⟩
  · rw [if_neg hid]
    refine ⟨fun _ => ?_, fun _ => ⟨rfl, rfl⟩⟩
    simp [urlFinalEvent]

/-- Witness for C10 at a synchronously completed backend response: no job
handle, so the only events are percent 5 and percent 100 and no poll request
is made. -/
theorem ingestUrl_success_final_event_witness :
    ((ingestUrl ⟨"v.mp4", "done", none, none⟩ (fun _ => .dropped) 360).1).getLast?.map
        (·.progress) = some 100 ∧
    (ingestUrl ⟨"v.mp4", "done", none, none⟩ (fun _ => .dropped) 360).1 =
        [urlInitEvent, urlFinalEvent] ∧
    (ingestUrl ⟨"v.mp4", "done", none, none⟩ (fun _ => .dropped) 360).2.1 = 0 := by
  refine ⟨(ingestUrl_success_final_event ⟨"v.mp4", "done", none, none⟩
      (fun _ => .dropped) 360 ⟨"v.mp4", "done", none, none⟩).1 rfl, ?_⟩
  exact (ingestUrl_success_final_event ⟨"v.mp4", "done", none, none⟩
      (fun _ => .dropped) 360 ⟨"v.mp4", "done", none, none⟩).2 rfl

/-- C9: local recovery in the poll loop.  A dropped poll request and a
non-ok poll response are swallowed — the loop just moves on to the next
attempt, forwarding nothing for this one.  A parsed body whose stage is
`'error'` (and which is not otherwise terminal) raises the server error out
of the loop at once, with no further poll.  An unparseable body — the only
other locally raised failure, and not a transport failure — is also
re-raised, not retried: transport failures are the only locally recovered
kind. -/
theorem pollLoop_transport_recovery (server : Nat → PollOutcome)
    (attempt : Nat) (lp : Int) (r : IngestResponse) (fuel : Nat) :
    (server attempt = .dropped →
      pollLoop server (fuel + 1) attempt lp r =
        ((pollLoop server fuel (attempt + 1) lp r).1,
          (pollLoop server fuel (attempt + 1) lp r).2.1 + 1,
          (pollLoop server fuel (attempt + 1) lp r).2.2)) ∧
    (server attempt = .httpFailure →
      pollLoop server (fuel + 1) attempt lp r =
        ((pollLoop server fuel (attempt + 1) lp r).1,
          (pollLoop server fuel (attempt + 1) lp r).2.1 + 1,
          (pollLoop server fuel (attempt + 1) lp r).2.2)) ∧
    (∀ d : PollData, server attempt = .ok d → d.stage = some "error" →
      d.progress < 100 →
      (pollLoop server (fuel + 1) attempt lp r).2 =
        (1, .failed (.serverError (jsOrElse d.message "Upload failed")))) ∧
    (server attempt = .badBody →
      pollLoop server (fuel + 1) attempt lp r =
        ([], 1, .failed .parseFailure)) := by
  refine ⟨fun h => ?_, fun h => ?_, fun d h hstage hlt => ?_, fun h => ?_⟩
  · simp [pollLoop, h]
  · simp [pollLoop, h]
  · have hnc : ¬ (100 ≤ d.progress ∨ d.stage = some "complete") := by
      push_neg
      exact ⟨by omega, by simp [hstage]⟩
    simp only [pollLoop, h]
    rw [if_neg hnc, if_pos hstage]
  · simp [pollLoop, h]

/-- Witness for C9: a dropped first poll is swallowed and the loop proceeds
to the next attempt (here exhausting a budget of one). -/
theorem pollLoop_transport_recovery_witness :
    pollLoop (fun _ => PollOutcome.dropped) 1 0 5
        ⟨"v.mp4", "processing", some "job-1", none⟩ =
      ([], 1, LoopExit.exhausted) :=
  (pollLoop_transport_recovery (fun _ => PollOutcome.dropped) 0 5
    ⟨"v.mp4", "processing", some "job-1", none⟩ 0).1 rfl

theorem pollLoop_all_continue (server : Nat → PollOutcome) :
    ∀ (fuel attempt : Nat) (lp : Int) (r : IngestResponse),
      (∀ j, j < fuel → pollContinues (server (attempt + j)) = true) →
      (pollLoop server fuel attempt lp r).2.1 = fuel ∧
      (pollLoop server fuel attempt lp r).2.2 = .exhausted := by
  intro fuel
  induction fuel with
  | zero => intro attempt lp r _; exact ⟨rfl, rfl⟩
  | succ f ih =>
    intro attempt lp r hcont
    have h0 : pollContinues (server attempt) = true := by
      simpa using hcont 0 (by omega)
    have hshift : ∀ j, j < f →
        pollContinues (server (attempt + 1 + j)) = true := by
      intro j hj
      have := hcont (j + 1) (by omega)
      rwa [show attempt + (j + 1) = attempt + 1 + j by omega] at this
    cases hs : server attempt with
    | dropped =>
      obtain ⟨h1, h2⟩ := ih (attempt + 1) lp r hshift
      simp [pollLoop, hs, h1, h2]
    | httpFailure =>
      obtain ⟨h1, h2⟩ := ih (attempt + 1) lp r hshift
      simp [pollLoop, hs, h1, h2]
    | badBody => rw [hs] at h0; simp [pollContinues] at h0
    | ok d =>
      rw [hs] at h0
      simp only [pollContinues, Bool.and_eq_true, decide_eq_true_eq] at h0
      obtain ⟨h1, h2⟩ :=
        ih (attempt + 1) (if lp < d.progress then d.progress else lp) r hshift
      simp only [pollLoop, hs]
      rw [if_neg h0.1, if_neg h0.2]
      simp [h1, h2]

/-- C4: with a truthy job handle and a server that, for the whole attempt
budget, never yields a terminal poll (every outcome lets the loop continue),
`ingestUrl` issues exactly `maxAttempts` poll requests and then fails with
the timeout error. -/
theorem ingestUrl_poll_budget_timeout (init : IngestResponse)
    (server : Nat → PollOutcome) (maxAttempts : Nat)
    (hid : jsTruthy init.upload_id = true)
    (hcont : ∀ j, j < maxAttempts → pollContinues (server j) = true) :
    (ingestUrl init server maxAttempts).2.1 = maxAttempts ∧
    (ingestUrl init server maxAttempts).2.2 =
      .error (.timeoutError timeoutText) := by
  have hmain := pollLoop_all_continue server maxAttempts 0 5 init
    (by intro j hj; simpa using hcont j hj)
  unfold ingestUrl
  rw [if_pos hid]
  rcases hpl : pollLoop server maxAttempts 0 5 init with ⟨evs, polls, ex⟩
  rw [hpl] at hmain
  obtain ⟨h1, h2⟩ := hmain
  simp only at h1 h2
  subst h2
  simpa using h1

/-- Witness for C4: a budget of 3 against a server that drops every poll
gives exactly 3 poll requests and the timeout failure. -/
theorem ingestUrl_poll_budget_timeout_witness :
    (ingestUrl ⟨"v.mp4", "processing", some "job-1", none⟩
        (fun _ => PollOutcome.dropped) 3).2.1 = 3 ∧
    (ingestUrl ⟨"v.mp4", "processing", some "job-1", none⟩
        (fun _ => PollOutcome.dropped) 3).2.2 =
      .error (.timeoutError timeoutText) :=
  ingestUrl_poll_budget_timeout ⟨"v.mp4", "processing", some "job-1", none⟩
    (fun _ => PollOutcome.dropped) 3 rfl (fun _ _ => rfl)

theorem pollLoop_error_exit (server : Nat → PollOutcome) (d : PollData)
    (hstage : d.stage = some "error") (hlt : d.progress < 100) :
    ∀ (k fuel attempt : Nat) (lp : Int) (r : IngestResponse), k < fuel →
      (∀ j, j < k → pollContinues (server (attempt + j)) = true) →
      server (attempt + k) = .ok d →
      (pollLoop server fuel attempt lp r).2.1 = k + 1 ∧
      (pollLoop server fuel attempt lp r).2.2 =
        .failed (.serverError (jsOrElse d.message "Upload failed")) := by
  intro k
  induction k with
  | zero =>
    intro fuel attempt lp r hk _ hsv
    cases fuel with
    | zero => omega
    | succ f =>
      rw [Nat.add_zero] at hsv
      have hnc : ¬ (100 ≤ d.progress ∨ d.stage = some "complete") := by
        push_neg
        exact ⟨by omega, by simp [hstage]⟩
      simp only [pollLoop, hsv]
      rw [if_neg hnc, if_pos hstage]
      exact ⟨rfl, rfl⟩
  | succ k ih =>
    intro fuel attempt lp r hk hcont hsv
    cases fuel with
    | zero => omega
    | succ f =>
      have h0 : pollContinues (server attempt) = true := by
        simpa using hcont 0 (by omega)
      have hshift : ∀ j, j < k →
          pollContinues (server (attempt + 1 + j)) = true := by
        intro j hj
        have := hcont (j + 1) (by omega)
        rwa [show attempt + (j + 1) = attempt + 1 + j by omega] at this
      have hsv2 : server (attempt + 1 + k) = .ok d := by
        rwa [show attempt + 1 + k = attempt + (k + 1) by omega]
      have hkf : k < f := by omega
      cases hs : server attempt with
      | dropped =>
        obtain ⟨h1, h2⟩ := ih f (attempt + 1) lp r hkf hshift hsv2
        simp [pollLoop, hs, h1, h2]
      | httpFailure =>
        obtain ⟨h1, h2⟩ := ih f (attempt + 1) lp r hkf hshift hsv2
        simp [pollLoop, hs, h1, h2]
      | badBody => rw [hs] at h0; simp [pollContinues] at h0
      | ok d2 =>
        rw [hs] at h0
        simp only [pollContinues, Bool.and_eq_true, decide_eq_true_eq] at h0
        obtain ⟨h1, h2⟩ :=
          ih f (attempt + 1) (if lp < d2.progress then d2.progress else lp) r
            hkf hshift hsv2
        simp only [pollLoop, hs]
        rw [if_neg h0.1, if_neg h0.2]
        simp [h1, h2]

/-- C3: if the first k poll iterations all let the loop continue and the
(k+1)-st poll body carries `stage = 'error'` with a nonempty server message
`m` (and is not otherwise terminal), then `ingestUrl` fails with exactly the
message `m` after exactly k+1 poll requests — no further polling. -/
theorem ingestUrl_error_stage_fails_immediately (init : IngestResponse)
    (server : Nat → PollOutcome) (maxAttempts k : Nat) (d : PollData)
    (m : String)
    (hid : jsTruthy init.upload_id = true)
    (hk : k < maxAttempts)
    (hbefore : ∀ j, j < k → pollContinues (server j) = true)
    (hsv : server k = .ok d)
    (hstage : d.stage = some "error")
    (hlt : d.progress < 100)
    (hmsg : d.message = some m)
    (hm : m ≠ "") :
    (ingestUrl init server maxAttempts).2.1 = k + 1 ∧
    (ingestUrl init server maxAttempts).2.2 =
      .error (.serverError m) := by
  have hjs : jsOrElse d.message "Upload failed" = m := by
    rw [hmsg]; simp [jsOrElse, hm]
  have hmain := pollLoop_error_exit server d hstage hlt k maxAttempts 0 5 init
    hk (by intro j hj; simpa using hbefore j hj) (by simpa using hsv)
  unfold ingestUrl
  rw [if_pos hid]
  rcases hpl : pollLoop server maxAttempts 0 5 init with ⟨evs, polls, ex⟩
  rw [hpl] at hmain
  obtain ⟨h1, h2⟩ := hmain
  simp only at h1 h2
  subst h2
  rw [hjs] at *
  exact ⟨h1, rfl⟩

/-- Witness for C3: a first poll reporting `stage:'error'` with the message
`quota exceeded` makes the call fail with that exact message after a single
poll, even with 359 attempts left in the budget. -/
theorem ingestUrl_error_stage_fails_immediately_witness :
    (ingestUrl ⟨"v.mp4", "processing", some "job-1", none⟩
        (fun _ => PollOutcome.ok
          ⟨10, none, none, none, some "quota exceeded", some "error",
            none, none⟩) 360).2.1 = 1 ∧
    (ingestUrl ⟨"v.mp4", "processing", some "job-1", none⟩
        (fun _ => PollOutcome.ok
          ⟨10, none, none, none, some "quota exceeded", some "error",
            none, none⟩) 360).2.2 =
      .error (.serverError "quota exceeded") :=
  ingestUrl_error_stage_fails_immediately
    ⟨"v.mp4", "processing", some "job-1", none⟩
    (fun _ => PollOutcome.ok
      ⟨10, none, none, none, some "quota exceeded", some "error", none, none⟩)
    360 0
    ⟨10, none, none, none, some "quota exceeded", some "error", none, none⟩
    "quota exceeded" rfl (by omega) (fun j hj => absurd hj (by omega)) rfl rfl
    (by decide) rfl (by decide)

theorem pollLoop_chain (server : Nat → PollOutcome) :
    ∀ (fuel attempt : Nat) (lp : Int) (r : IngestResponse),
      List.Chain (· < ·) lp
        (((pollLoop server fuel attempt lp r).1).map (·.progress)) := by
  intro fuel
  induction fuel with
  | zero => intro attempt lp r; simp [pollLoop]
  | succ f ih =>
    intro attempt lp r
    cases hs : server attempt with
    | dropped => simpa [pollLoop, hs] using ih (attempt + 1) lp r
    | httpFailure => simpa [pollLoop, hs] using ih (attempt + 1) lp r
    | badBody => simp [pollLoop, hs]
    | ok d =>
      simp only [pollLoop, hs]
      by_cases hterm : 100 ≤ d.progress ∨ d.stage = some "complete"
      · rw [if_pos hterm]
        by_cases hp : lp < d.progress
        · simp [hp, pollEvent, List.chain_cons]
        · simp [hp]
      · rw [if_neg hterm]
        by_cases herr : d.stage = some "error"
        · rw [if_pos herr]
          by_cases hp : lp < d.progress
          · simp [hp, pollEvent, List.chain_cons]
          · simp [hp]
        · rw [if_neg herr]
          by_cases hp : lp < d.progress
          · simp only [if_pos hp, List.singleton_append, List.map_cons,
              List.chain_cons]
            exact ⟨by simpa [pollEvent] using hp,
              by simpa [pollEvent] using ih (attempt + 1) d.progress r⟩
          · simpa [hp] using ih (attempt + 1) lp r

/-- C5: the poll loop forwards a response only when its progress strictly
exceeds the progress of the last forwarded event (the chain starts at the
current `lastProgress`, 5 at loop entry), so the forwarded progress values
are strictly increasing; in particular a server answering `progress = 10` on
both of two attempts gets exactly one forwarded event — the full event list
is the initial percent-5 event plus that single `10` event, while two poll
requests were issued. -/
theorem ingestUrl_forward_strict_increase :
    (∀ (server : Nat → PollOutcome) (fuel attempt : Nat) (lp : Int)
        (r : IngestResponse),
      List.Chain (· < ·) lp
        (((pollLoop server fuel attempt lp r).1).map (·.progress))) ∧
    (ingestUrl ⟨"v.mp4", "processing", some "job-7", none⟩
        (fun _ => PollOutcome.ok
          ⟨10, none, none, none, some "Downloading", none, none, none⟩)
        2).1 = [urlInitEvent, ⟨10, 0, 0, 0, "Downloading"⟩] ∧
    (ingestUrl ⟨"v.mp4", "processing", some "job-7", none⟩
        (fun _ => PollOutcome.ok
          ⟨10, none, none, none, some "Downloading", none, none, none⟩)
        2).2.1 = 2 :=
  ⟨pollLoop_chain, rfl, rfl⟩

theorem round_mono_le {x y : ℚ} (h : x ≤ y) : round x ≤ round y := by
  rw [round_eq, round_eq]
  exact Int.floor_le_floor (by linarith)

theorem roundPercent_nonneg (total loaded : Nat) :
    0 ≤ roundPercent total loaded := by
  unfold roundPercent
  rw [round_eq]
  rw [Int.floor_nonneg]
  positivity

theorem roundPercent_mono (total : Nat) {a b : Nat} (h : a ≤ b) :
    roundPercent total a ≤ roundPercent total b := by
  unfold roundPercent
  apply round_mono_le
  have hc : (0 : ℚ) ≤ 50 / (total : ℚ) := by positivity
  calc (a : ℚ) / (total : ℚ) * 50 = (a : ℚ) * (50 / (total : ℚ)) := by ring
    _ ≤ (b : ℚ) * (50 / (total : ℚ)) :=
        mul_le_mul_of_nonneg_right (by exact_mod_cast h) hc
    _ = (b : ℚ) / (total : ℚ) * 50 := by ring

theorem roundPercent_le_fifty (total loaded : Nat) (htotal : 0 < total)
    (h : loaded ≤ total) : roundPercent total loaded ≤ 50 := by
  unfold roundPercent
  have h50 : ((loaded : ℚ) / (total : ℚ)) * 50 ≤ 50 := by
    have hq : (loaded : ℚ) / (total : ℚ) ≤ 1 := by
      rw [div_le_one (by exact_mod_cast htotal)]
      exact_mod_cast h
    nlinarith
  calc round ((loaded : ℚ) / (total : ℚ) * 50) ≤ round (50 : ℚ) :=
        round_mono_le h50
    _ = 50 := by norm_num

theorem processSamples_progress (total : Nat) :
    ∀ (st : MeterState) (samples : List FileSample),
      (processSamples total st samples).map (·.progress) =
        samples.map (fun s => roundPercent total s.loaded) := by
  intro st samples
  induction samples generalizing st with
  | nil => rfl
  | cons s rest ih => simp [processSamples, fileSampleEvent, ih]

theorem processSamples_mem_progress (total : Nat) :
    ∀ (st : MeterState) (samples : List FileSample)
      (e : UploadProgressInfo), e ∈ processSamples total st samples →
      ∃ s ∈ samples, e.progress = roundPercent total s.loaded := by
  intro st samples
  induction samples generalizing st with
  | nil => intro e he; simp [processSamples] at he
  | cons s rest ih =>
    intro e he
    simp only [processSamples, List.mem_cons] at he
    rcases he with he | he
    · exact ⟨s, by simp, by rw [he]; rfl⟩
    · obtain ⟨u, hu, hup⟩ := ih _ e he
      exact ⟨u, by simp [hu], hup⟩

/-- C2: with an `onProgress` callback, a positive file size and transport
samples that never report more bytes than the total, `ingestFile` emits
percent 0 first, keeps every pre-completion percent within `[0, 50]`, and on
a successful completion ends with percent exactly 100. -/
theorem ingestFile_percent_bounds (size : Nat) (tStart : ℚ)
    (samples : List FileSample) (r : IngestResponse)
    (outcome : UploadOutcome) (hsize : 0 < size)
    (hbound : ∀ s ∈ samples, s.loaded ≤ size) :
    ((ingestFile size tStart samples outcome).1).head?.map (·.progress) =
        some 0 ∧
    (∀ e ∈ uploadTransferEvents size tStart samples,
      0 ≤ e.progress ∧ e.progress ≤ 50) ∧
    ((ingestFile size tStart samples (.success r)).1).getLast?.map
        (·.progress) = some 100 := by
  have hne : ¬ size = 0 := by omega
  have htr : uploadTransferEvents size tStart samples =
      uploadInitEvent size ::
        processSamples size ⟨0, tStart, 0⟩ samples := by
    unfold uploadTransferEvents
    rw [if_neg hne]
    rfl
  refine ⟨?_, ?_, ?_⟩
  · cases outcome <;> simp only [ingestFile] <;> rw [htr] <;> rfl
  · intro e he
    rw [htr, List.mem_cons] at he
    rcases he with he | he
    · rw [he]
      exact ⟨le_refl 0, by norm_num [uploadInitEvent]⟩
    · obtain ⟨s, hs, hp⟩ := processSamples_mem_progress size _ samples e he
      rw [hp]
      exact ⟨roundPercent_nonneg size s.loaded,
        roundPercent_le_fifty size s.loaded hsize (hbound s hs)⟩
  · simp only [ingestFile]
    rw [if_neg hne, List.getLast?_concat]
    rfl

/-- Witness for C2 at a 4-byte file with one halfway sample: events are
percent 0, 25, 100. -/
theorem ingestFile_percent_bounds_witness :
    ((ingestFile 4 0 [⟨1000, 2⟩]
        (.success ⟨"f.mp4", "ok", none, none⟩)).1).head?.map (·.progress) =
        some 0 ∧
    (∀ e ∈ uploadTransferEvents 4 0 [⟨1000, 2⟩],
      0 ≤ e.progress ∧ e.progress ≤ 50) ∧
    ((ingestFile 4 0 [⟨1000, 2⟩]
        (.success ⟨"f.mp4", "ok", none, none⟩)).1).getLast?.map
        (·.progress) = some 100 :=
  ingestFile_percent_bounds 4 0 [⟨1000, 2⟩] ⟨"f.mp4", "ok", none, none⟩
    (.success ⟨"f.mp4", "ok", none, none⟩) (by omega)
    (by intro s hs; simp at hs; simp [hs])

/-- C1 counterexample: a server whose single poll reports progress 101 (with
non-decreasing reported bytes) makes the URL channel emit percents
5, 101, 100 — the forwarded 101 is followed by the unconditional terminal
100, so the delivered percents are not non-decreasing as stated. -/
theorem percent_monotone_counterexample :
    (((ingestUrl ⟨"v.mp4", "processing", some "job-1", none⟩
        (fun _ => PollOutcome.ok
          ⟨101, some 0, some 0, none, some "Downloading", none, none, none⟩)
        360).1).map (·.progress) = [5, 101, 100]) ∧
    ¬ List.Chain' (· ≤ ·)
      (((ingestUrl ⟨"v.mp4", "processing", some "job-1", none⟩
        (fun _ => PollOutcome.ok
          ⟨101, some 0, some 0, none, some "Downloading", none, none, none⟩)
        360).1).map (·.progress)) := by
  refine ⟨rfl, ?_⟩
  intro h
  rw [show ((ingestUrl ⟨"v.mp4", "processing", some "job-1", none⟩
      (fun _ => PollOutcome.ok
        ⟨101, some 0, some 0, none, some "Downloading", none, none, none⟩)
      360).1).map (·.progress) = [5, 101, 100] from rfl] at h
  rw [List.chain'_cons, List.chain'_cons] at h
  exact absurd h.2.1 (by decide)

theorem chain_le_append_last {c : Int} :
    ∀ {l : List Int} {a : Int}, List.Chain (· ≤ ·) a l →
      (∀ x ∈ l, x ≤ c) → a ≤ c →
      List.Chain (· ≤ ·) a (l ++ [c]) := by
  intro l
  induction l with
  | nil =>
    intro a _ _ hac
    simpa [List.chain_cons] using hac
  | cons b t ih =>
    intro a hch hle hac
    rw [List.chain_cons] at hch
    rw [List.cons_append, List.chain_cons]
    exact ⟨hch.1, ih hch.2 (fun x hx => hle x (by simp [hx]))
      (hle b (by simp))⟩

theorem chain_roundPercent (size : Nat) :
    ∀ (samples : List FileSample) (b : Int),
      List.Chain' (fun s t : FileSample => s.loaded ≤ t.loaded) samples →
      (∀ y ∈ samples.head?, b ≤ roundPercent size y.loaded) →
      List.Chain (· ≤ ·) b
        (samples.map fun s => roundPercent size s.loaded) := by
  intro samples
  induction samples with
  | nil => intro b _ _; exact List.Chain.nil
  | cons s t ih =>
    intro b hch hb
    rw [List.chain'_cons'] at hch
    rw [List.map_cons]
    exact List.Chain.cons (hb s rfl)
      (ih (roundPercent size s.loaded) hch.2
        (fun y hy => roundPercent_mono size (hch.1 y hy)))

theorem pollLoop_progress_le (server : Nat → PollOutcome)
    (hserver : ∀ a d, server a = PollOutcome.ok d → d.progress ≤ 100) :
    ∀ (fuel attempt : Nat) (lp : Int) (r : IngestResponse),
      ∀ e ∈ (pollLoop server fuel attempt lp r).1, e.progress ≤ 100 := by
  intro fuel
  induction fuel with
  | zero => intro attempt lp r e he; simp [pollLoop] at he
  | succ f ih =>
    intro attempt lp r e he
    cases hs : server attempt with
    | dropped =>
      exact ih (attempt + 1) lp r e (by simpa [pollLoop, hs] using he)
    | httpFailure =>
      exact ih (attempt + 1) lp r e (by simpa [pollLoop, hs] using he)
    | badBody => simp [pollLoop, hs] at he
    | ok d =>
      have hd := hserver attempt d hs
      simp only [pollLoop, hs] at he
      by_cases hterm : 100 ≤ d.progress ∨ d.stage = some "complete"
      · rw [if_pos hterm] at he
        by_cases hp : lp < d.progress
        · rw [if_pos hp] at he
          simp at he
          rw [he]
          simpa [pollEvent] using hd
        · rw [if_neg hp] at he
          simp at he
      · rw [if_neg hterm] at he
        by_cases herr : d.stage = some "error"
        · rw [if_pos herr] at he
          by_cases hp : lp < d.progress
          · rw [if_pos hp] at he
            simp at he
            rw [he]
            simpa [pollEvent] using hd
          · rw [if_neg hp] at he
            simp at he
        · rw [if_neg herr] at he
          by_cases hp : lp < d.progress
          · simp only [if_pos hp] at he
            simp only [List.singleton_append, List.mem_cons] at he
            rcases he with he | he
            · rw [he]
              simpa [pollEvent] using hd
            · exact ih (attempt + 1) d.progress r e he
          · simp only [if_neg hp] at he
            simp only [List.nil_append] at he
            exact ih (attempt + 1) lp r e he

/-- C1 (amended): within one ingestion attempt the delivered percents are
non-decreasing, provided the raw inputs are within the transport's domain —
for the upload channel a positive total with each sample's loaded bytes
non-decreasing and at most the total, and for the URL channel server-reported
progress values of at most 100 (the counterexample shows the unconditional
statement fails when the server reports a progress above 100). -/
theorem percent_monotone_amended (size : Nat) (tStart : ℚ)
    (samples : List FileSample) (outcome : UploadOutcome)
    (init : IngestResponse) (server : Nat → PollOutcome) (maxAttempts : Nat)
    (hsize : 0 < size)
    (hmono : List.Chain' (fun s t : FileSample => s.loaded ≤ t.loaded)
      samples)
    (hbound : ∀ s ∈ samples, s.loaded ≤ size)
    (hserver : ∀ a d, server a = PollOutcome.ok d → d.progress ≤ 100) :
    List.Chain' (· ≤ ·)
      (((ingestFile size tStart samples outcome).1).map (·.progress)) ∧
    List.Chain' (· ≤ ·)
      (((ingestUrl init server maxAttempts).1).map (·.progress)) := by
  have hne : ¬ size = 0 := by omega
  constructor
  · have hchain0 : List.Chain (· ≤ ·) 0
        ((processSamples size ⟨0, tStart, 0⟩ samples).map (·.progress)) := by
      rw [processSamples_progress]
      exact chain_roundPercent size samples 0 hmono
        (fun y _ => roundPercent_nonneg size y.loaded)
    have hbnd : ∀ x ∈ (processSamples size ⟨0, tStart, 0⟩ samples).map
        (·.progress), x ≤ (100 : Int) := by
      intro x hx
      rw [processSamples_progress] at hx
      obtain ⟨s, hs, hxe⟩ := List.mem_map.mp hx
      rw [← hxe]
      have h50 := roundPercent_le_fifty size s.loaded hsize (hbound s hs)
      omega
    cases outcome with
    | success r =>
      simp only [ingestFile, uploadTransferEvents]
      rw [if_neg hne, if_neg hne]
      rw [List.singleton_append, List.cons_append, List.map_cons,
        List.map_append]
      simp only [uploadInitEvent, uploadFinalEvent, List.map_cons,
        List.map_nil]
      exact chain_le_append_last hchain0 hbnd (by norm_num)
    | badBody =>
      simp only [ingestFile, uploadTransferEvents]
      rw [if_neg hne]
      rw [List.singleton_append, List.map_cons]
      exact hchain0
    | httpFailure detail =>
      simp only [ingestFile, uploadTransferEvents]
      rw [if_neg hne]
      rw [List.singleton_append, List.map_cons]
      exact hchain0
    | networkFailure =>
      simp only [ingestFile, uploadTransferEvents]
      rw [if_neg hne]
      rw [List.singleton_append, List.map_cons]
      exact hchain0
  · unfold ingestUrl
    by_cases hid : jsTruthy init.upload_id
    · rw [if_pos hid]
      rcases hpl : pollLoop server maxAttempts 0 5 init with ⟨evs, polls, ex⟩
      have hchain : List.Chain (· < ·) 5 (evs.map (·.progress)) := by
        have h := pollLoop_chain server maxAttempts 0 5 init
        rwa [hpl] at h
      have hchainle : List.Chain (· ≤ ·) 5 (evs.map (·.progress)) :=
        List.Chain.imp (fun a b h => le_of_lt h) hchain
      have hb : ∀ x ∈ evs.map (·.progress), x ≤ (100 : Int) := by
        intro x hx
        obtain ⟨e, he, hxe⟩ := List.mem_map.mp hx
        rw [← hxe]
        apply pollLoop_progress_le server hserver maxAttempts 0 5 init
        rw [hpl]
        exact he
      cases ex with
      | completed res =>
        show List.Chain' (· ≤ ·)
          ((urlInitEvent :: evs ++ [urlFinalEvent]).map (·.progress))
        simp only [List.map_cons, List.map_append, List.map_nil,
          urlInitEvent, urlFinalEvent]
        exact chain_le_append_last hchainle hb (by norm_num)
      | failed e =>
        show List.Chain' (· ≤ ·) ((urlInitEvent :: evs).map (·.progress))
        simp only [List.map_cons, urlInitEvent]
        exact hchainle
      | exhausted =>
        show List.Chain' (· ≤ ·) ((urlInitEvent :: evs).map (·.progress))
        simp only [List.map_cons, urlInitEvent]
        exact hchainle
    · rw [if_neg hid]
      simp only [List.map_cons, List.map_nil, urlInitEvent, urlFinalEvent]
      rw [List.chain'_cons]
      exact ⟨by norm_num, List.chain'_singleton 100⟩

/-- Witness for C1 (amended): a 4-byte upload with one in-range sample and a
URL job whose server reports an in-range progress of 10. -/
theorem percent_monotone_amended_witness :
    List.Chain' (· ≤ ·)
      (((ingestFile 4 0 [⟨1000, 2⟩]
        (.success ⟨"f.mp4", "ok", none, none⟩)).1).map (·.progress)) ∧
    List.Chain' (· ≤ ·)
      (((ingestUrl ⟨"v.mp4", "processing", some "job-1", none⟩
        (fun _ => PollOutcome.ok
          ⟨10, none, none, none, some "Downloading", none, none, none⟩)
        2).1).map (·.progress)) :=
  percent_monotone_amended 4 0 [⟨1000, 2⟩]
    (.success ⟨"f.mp4", "ok", none, none⟩)
    ⟨"v.mp4", "processing", some "job-1", none⟩
    (fun _ => PollOutcome.ok
      ⟨10, none, none, none, some "Downloading", none, none, none⟩)
    2 (by omega) (by simp) (by intro s hs; simp at hs; simp [hs])
    (by intro a d h; injection h with h2; rw [← h2]; decide)
